import Mathlib

/-!
Verification of the m3u8-extractor-api repository
(src/netlify/functions/extract.js) against its specification.

The file shallowly embeds the JavaScript source:
* JS `Set` of strings becomes an insertion-ordered duplicate-free list
  built with `addToSet`.
* `String.prototype.includes` becomes `strIncludes` (substring search).
* The platform builtin `new URL(...)` (WHATWG URL parser) is modelled by
  `parseURL`, covering scheme splitting, authority/host/port parsing for
  special and non-special schemes, and pathname/search extraction.  The
  model keeps the raw path characters (no percent-encoding and no
  dot-segment normalisation); neither transformation can create or
  destroy an occurrence of the marker ".m3u8", which is all the claims
  consult the pathname for.
* The regex /https?:\/\/[^\s"<>()...]+\.m3u8(?:\?...)?/gi of the in-page
  scanner is hand-compiled into the matcher `matchLen` / `scanAux`
  (greedy with backtracking on the `+`, case-insensitive on the
  literals, global scan producing non-overlapping matches left to
  right).
* `JSON.parse` is modelled by `jsonParse`, a fuel-indexed recursive
  descent over the JSON grammar that fails (models a thrown
  SyntaxError) on malformed input.
* The Netlify handler becomes the pure function `handler`, taking the
  event together with the outcome of the browser extraction
  (`Except String (List String)`, modelling a thrown error or the
  returned list).
-/

namespace M3U8

/-! ### Named character constants used throughout the embedding -/

def chQuote : Char := Char.ofNat 34

def chApos : Char := Char.ofNat 39

def chLBrace : Char := Char.ofNat 123

def chRBrace : Char := Char.ofNat 125

def chBackslash : Char := '\\'

def chBacktick : Char := Char.ofNat 96

/-! ### JS string/Set primitives -/

/-- `pat.isPrefixOf l` decided character by character. -/
def isSubAt : List Char → List Char → Bool
  | [], _ => true
  | _ :: _, [] => false
  | p :: ps, c :: cs => p == c && isSubAt ps cs

/-- Substring containment over character lists: models
`haystack.includes(pattern)` of JS. -/
def listIncl (pat : List Char) : List Char → Bool
  | [] => isSubAt pat []
  | c :: cs => isSubAt pat (c :: cs) || listIncl pat cs

/-- Models JS `s.includes(pat)`. -/
def strIncludes (s pat : String) : Bool := listIncl pat.data s.data

/-- Models `set.add(x)` on a JS `Set` represented as its insertion-ordered
element list (`Array.from(set)` returns exactly this list). -/
def addToSet (s : List String) (x : String) : List String :=
  if x ∈ s then s else s ++ [x]

/-! ### Model of the WHATWG URL parser (the JS `new URL` builtin)

Only validity, and the `pathname` component, are consulted by the
program (extract.js lines 46-47 and 244-251). -/

structure URLParts where
  scheme : List Char
  host : List Char
  port : List Char
  pathname : List Char
  search : List Char
deriving DecidableEq, Repr

def isC0Space (c : Char) : Bool := c.toNat ≤ 32

def isTabNewline (c : Char) : Bool := c == '\t' || c == '\n' || c == '\r'

def trimEnd (l : List Char) : List Char := (l.reverse.dropWhile isC0Space).reverse

/-- Input cleaning of the WHATWG basic URL parser: strip leading and
trailing C0-control/space, remove ASCII tab and newline everywhere. -/
def cleanInput (l : List Char) : List Char :=
  trimEnd ((l.filter (fun c => !isTabNewline c)).dropWhile isC0Space)

def isSchemeChar (c : Char) : Bool :=
  c.isAlphanum || c == '+' || c == '-' || c == '.'

/-- Split off `scheme:`; the scheme must start with an ASCII letter and
consist of letters, digits, `+`, `-`, `.` followed by a colon.  Returns
the lower-cased scheme and the remainder, or `none` (the JS constructor
throws on an input with no valid scheme and no base URL). -/
def splitScheme (l : List Char) : Option (List Char × List Char) :=
  match l with
  | [] => none
  | c :: _ =>
    if !c.isAlpha then none
    else
      let sch := l.takeWhile isSchemeChar
      if (l.drop sch.length).headD ' ' == ':' then
        some (sch.map Char.toLower, (l.drop sch.length).drop 1)
      else none

def isSpecialScheme (s : List Char) : Bool :=
  s == "http".data || s == "https".data || s == "ws".data ||
  s == "wss".data || s == "ftp".data

def isSlash (c : Char) : Bool := c == '/' || c == chBackslash

def pathEnd (c : Char) : Bool := c == '?' || c == '#'

def slashify (c : Char) : Char := if c == chBackslash then '/' else c

/-- Forbidden domain code points (WHATWG): hosts of special-scheme URLs
may not contain these. -/
def forbiddenDomainChar (c : Char) : Bool :=
  c.toNat ≤ 32 || c == '#' || c == '/' || c == ':' || c == '<' || c == '>' ||
  c == '?' || c == '@' || c == '[' || c == chBackslash || c == ']' ||
  c == '^' || c == '|' || c == '%' || c == chQuote || c == chBacktick ||
  c == chLBrace || c == chRBrace

/-- Forbidden host code points for opaque (non-special) hosts: as above
minus `%`. -/
def forbiddenHostChar (c : Char) : Bool :=
  c.toNat ≤ 32 || c == '#' || c == '/' || c == ':' || c == '<' || c == '>' ||
  c == '?' || c == '@' || c == '[' || c == chBackslash || c == ']' ||
  c == '^' || c == '|' || c == chQuote || c == chBacktick ||
  c == chLBrace || c == chRBrace

def ipv6HostChar (c : Char) : Bool :=
  c.isDigit || (c.toLower.toNat ≥ 97 && c.toLower.toNat ≤ 102) || c == ':' || c == '.'

/-- Userinfo stripping: the host-port part is what follows the last `@`. -/
def afterLastAt (l : List Char) : List Char :=
  (l.reverse.takeWhile (fun c => c != '@')).reverse

/-- Split a host-port string at the port colon, honouring `[...]`
IPv6 bracket syntax.  Returns `none` when the bracket syntax is
malformed. -/
def parseHostPort (hp : List Char) : Option (List Char × List Char) :=
  if hp.headD ' ' == '[' then
    let inner := (hp.drop 1).takeWhile (fun c => c != ']')
    let rest := (hp.drop 1).drop (inner.length + 1)
    if (hp.drop 1).length ≤ inner.length then none
    else if inner.isEmpty || !inner.all ipv6HostChar then none
    else
      match rest with
      | [] => some ('[' :: (inner ++ [']']), [])
      | ':' :: p => some ('[' :: (inner ++ [']']), p)
      | _ => none
  else
    some (hp.takeWhile (fun c => c != ':'),
          (hp.dropWhile (fun c => c != ':')).drop 1)

def digitsToNat (l : List Char) : Nat :=
  l.foldl (fun n c => n * 10 + (c.toNat - 48)) 0

def validPort (p : List Char) : Bool :=
  p.all Char.isDigit && (p.isEmpty || digitsToNat p ≤ 65535)

def validSpecialHost (h : List Char) : Bool :=
  if h.isEmpty then false
  else if h.headD ' ' == '[' then true
  else h.all (fun c => !forbiddenDomainChar c)

/-- Authority/path parsing for special schemes other than `file`
(http, https, ws, wss, ftp).  After `scheme:`, any run of slashes is
skipped, the authority extends to the next `/`, backslash, `?` or `#`,
and the path runs to `?` or `#` with backslashes normalised to
slashes.  An empty path serialises as "/". -/
def parseAfterSpecial (scheme rest : List Char) : Option URLParts :=
  let afterSlashes := rest.dropWhile isSlash
  let authority := afterSlashes.takeWhile (fun c => !(isSlash c || pathEnd c))
  let afterAuth := afterSlashes.drop authority.length
  match parseHostPort (afterLastAt authority) with
  | none => none
  | some (host, port) =>
    if !validSpecialHost host then none
    else if !validPort port then none
    else
      let rawPath := afterAuth.takeWhile (fun c => !pathEnd c)
      let afterPath := afterAuth.drop rawPath.length
      some ⟨scheme, host.map Char.toLower, port,
            (if rawPath.isEmpty then ['/'] else rawPath.map slashify),
            afterPath.takeWhile (fun c => c != '#')⟩

/-- `file:` URLs: the host may be empty; userinfo and ports are
rejected. -/
def parseAfterFile (rest : List Char) : Option URLParts :=
  if isSlash (rest.headD 'x') && isSlash ((rest.drop 1).headD 'x') then
    let afterSlashes := rest.drop 2
    let authority := afterSlashes.takeWhile (fun c => !(isSlash c || pathEnd c))
    let afterAuth := afterSlashes.drop authority.length
    if authority.contains '@' || authority.contains ':' then none
    else if !(authority.isEmpty || authority.all (fun c => !forbiddenDomainChar c)) then none
    else
      let rawPath := afterAuth.takeWhile (fun c => !pathEnd c)
      let afterPath := afterAuth.drop rawPath.length
      some ⟨"file".data, authority, [],
            (if rawPath.isEmpty then ['/'] else rawPath.map slashify),
            afterPath.takeWhile (fun c => c != '#')⟩
  else
    let rawPath := rest.takeWhile (fun c => !pathEnd c)
    let afterPath := rest.drop rawPath.length
    some ⟨"file".data, [], [],
          (if rawPath.isEmpty then ['/'] else rawPath.map slashify),
          afterPath.takeWhile (fun c => c != '#')⟩

/-- Non-special schemes: with a `//` authority the host may be empty;
otherwise the remainder up to `?`/`#` is kept verbatim as the path. -/
def parseAfterNonSpecial (scheme rest : List Char) : Option URLParts :=
  if rest.headD 'x' == '/' && (rest.drop 1).headD 'x' == '/' then
    let afterSlashes := rest.drop 2
    let authority := afterSlashes.takeWhile (fun c => !(c == '/' || pathEnd c))
    let afterAuth := afterSlashes.drop authority.length
    match parseHostPort (afterLastAt authority) with
    | none => none
    | some (host, port) =>
      if !(host.isEmpty || host.headD ' ' == '[' ||
           host.all (fun c => !forbiddenHostChar c)) then none
      else if !validPort port then none
      else
        let rawPath := afterAuth.takeWhile (fun c => !pathEnd c)
        let afterPath := afterAuth.drop rawPath.length
        some ⟨scheme, host, port, rawPath,
              afterPath.takeWhile (fun c => c != '#')⟩
  else
    let rawPath := rest.takeWhile (fun c => !pathEnd c)
    let afterPath := rest.drop rawPath.length
    some ⟨scheme, [], [], rawPath,
          afterPath.takeWhile (fun c => c != '#')⟩

/-- Model of the JS `new URL(s)` constructor: `none` models a thrown
`TypeError` (invalid URL). -/
def parseURLChars (l : List Char) : Option URLParts :=
  match splitScheme (cleanInput l) with
  | none => none
  | some (scheme, rest) =>
    if scheme == "file".data then parseAfterFile rest
    else if isSpecialScheme scheme then parseAfterSpecial scheme rest
    else parseAfterNonSpecial scheme rest

def parseURL (s : String) : Option URLParts := parseURLChars s.data

/-! ### The final filter (extract.js lines 244-251) -/

def dotM3u8 : List Char := ".m3u8".data

/-- The predicate of the final `Array.from(m3u8Links).filter(...)`:
`new URL(link)` must succeed and its pathname must contain ".m3u8";
a parse failure is caught and mapped to `false`. -/
def isKeptLink (link : String) : Bool :=
  match parseURL link with
  | some u => listIncl dotM3u8 u.pathname
  | none => false

/-- The final filter step of `extractM3U8WithBrowser`. -/
def finalFilter (links : List String) : List String := links.filter isKeptLink

/-! ### Traffic Observer (extract.js lines 131-157) -/

structure ReqEvent where
  url : String
  resourceType : String
deriving DecidableEq, Repr

inductive ReqAction where
  | abortReq
  | continueReq
deriving DecidableEq, Repr

/-- The page.on(request) handler: a URL containing ".m3u8" is first
added to the set, then image/font/stylesheet requests are aborted and
all other requests continue. -/
def onRequest (s : List String) (r : ReqEvent) : List String × ReqAction :=
  let s1 := if strIncludes r.url ".m3u8" then addToSet s r.url else s
  if r.resourceType ∈ (["image", "font", "stylesheet"] : List String) then
    (s1, ReqAction.abortReq)
  else (s1, ReqAction.continueReq)

/-- The page.on(response) handler. -/
def onResponse (s : List String) (url contentType : String) : List String :=
  if strIncludes url ".m3u8" || strIncludes contentType "application/vnd.apple.mpegurl" ||
      strIncludes contentType "application/x-mpegurl" then
    addToSet s url
  else s

inductive TrafficEvent where
  | req (r : ReqEvent)
  | resp (url contentType : String)
deriving Repr

def trafficStep (s : List String) : TrafficEvent → List String
  | TrafficEvent.req r => (onRequest s r).1
  | TrafficEvent.resp url ct => onResponse s url ct

/-! ### The in-page scanner regex, hand-compiled
(/https?:\/\/[^\s"two-quotes<>()braces-brackets]+\.m3u8(?:\?[^...]*)?/gi) -/

/-- The negated character class of the regex: everything except JS
whitespace, both quote characters, angle brackets, parentheses, braces
and square brackets.  (JS \s also covers some rare unicode spaces; the
model lists the common ones.) -/
def isUrlChar (c : Char) : Bool :=
  !(c == ' ' || c == '\t' || c == '\n' || c == '\r' ||
    c == Char.ofNat 11 || c == Char.ofNat 12 || c == Char.ofNat 160 ||
    c == chQuote || c == chApos || c == '<' || c == '>' ||
    c == '(' || c == ')' || c == chLBrace || c == chRBrace ||
    c == '[' || c == ']')

/-- Case-insensitive literal prefix test (`pat` given lower-case):
models the /i flag on the literal parts of the pattern. -/
def cistarts (pat : String) (l : List Char) : Bool :=
  ((l.take pat.length).map Char.toLower) == pat.data

/-- Largest index `j ≥ 1` at which ".m3u8" occurs (case-insensitively)
in `run`: the greedy `+` backtracks from the longest prefix, so the
rightmost occurrence wins. -/
def lastM3u8Pos (run : List Char) : Nat → Option Nat
  | 0 => none
  | j + 1 =>
    if ((run.drop (j + 1)).take 5).map Char.toLower == dotM3u8 then some (j + 1)
    else lastM3u8Pos run j

/-- Length of the regex match starting at the head of `l`, if any:
`https?:\/\/` case-insensitively, then at least one URL character, a
backtracked ".m3u8", and an optional `?query` of URL characters. -/
def matchLen (l : List Char) : Option Nat :=
  if !cistarts "http" l then none
  else
    match (if cistarts "s://" (l.drop 4) then some 8
           else if cistarts "://" (l.drop 4) then some 7 else none) with
    | none => none
    | some k =>
      let run := (l.drop k).takeWhile isUrlChar
      match lastM3u8Pos run run.length with
      | none => none
      | some j =>
        match run.drop (j + 5) with
        | [] => some (k + j + 5)
        | c :: _ => if c == '?' then some (k + run.length) else some (k + j + 5)

/-- Global scan: repeatedly find the next match, resuming right after
the previous one (fuel = remaining length; every match is nonempty). -/
def scanAux : Nat → List Char → List (List Char)
  | 0, _ => []
  | _, [] => []
  | fuel + 1, c :: t =>
    match matchLen (c :: t) with
    | some n => (c :: t).take n :: scanAux fuel ((c :: t).drop n)
    | none => scanAux fuel t

/-- All matches of the m3u8 URL regex in `s`: models
`s.match(/.../gi)`, with `[]` where JS yields null. -/
def regexMatches (s : String) : List String :=
  (scanAux s.data.length s.data).map String.mk

/-! ### Content Scanner (extract.js lines 175-237) -/

/-- The page state observed by the in-page evaluation: the text of
every script element, the JSON.stringify output of every video-player
global that exists and whose access succeeds (a global whose access
throws is skipped by the try/catch and contributes no entry), the
values of the scanned attributes (data-src, data-url, data-stream,
data-file, src) over all elements in document order, and the
serialised document HTML. -/
structure PageState where
  scripts : List String
  globalsSerialized : List String
  attrValues : List String
  html : String
deriving Repr

/-- `page.evaluate`: four scans accumulating into one JS Set, returned
as its insertion-ordered element list. -/
def contentScan (p : PageState) : List String :=
  let s0 := p.scripts.foldl (fun acc sc => (regexMatches sc).foldl addToSet acc) []
  let s1 := p.globalsSerialized.foldl (fun acc g => (regexMatches g).foldl addToSet acc) s0
  let s2 := p.attrValues.foldl
    (fun acc v => if strIncludes v ".m3u8" then addToSet acc v else acc) s1
  (regexMatches p.html).foldl addToSet s2

/-- The manifest URL of the spec's script-scan property (spec section
8): "https://example.com/video/master.m3u8". -/
def masterUrl : String := "https://example.com/video/master.m3u8"

/-! ### The extraction routine (extract.js lines 99-259) -/

/-- Environment describing the outcomes of the effectful browser steps
of one extraction: whether launch throws, the network request/response
events delivered while the page is open, whether navigation
(goto/waitForTimeout) throws, whether the in-page evaluation throws,
and the page state the evaluation sees. -/
structure BrowserEnv where
  launchErr : Option String
  traffic : List TrafficEvent
  gotoErr : Option String
  evalErr : Option String
  page : PageState

structure ExtractTrace where
  result : Except String (List String)
  browserLaunched : Bool
  browserClosed : Bool

/-- The try-block of `extractM3U8WithBrowser`: the result (or the first
thrown error), together with whether the `browser` variable was
assigned a non-null handle. -/
def extractTry (env : BrowserEnv) : Except String (List String) × Bool :=
  match env.launchErr with
  | some e => (Except.error e, false)
  | none =>
    let s := env.traffic.foldl trafficStep []
    match env.gotoErr with
    | some e => (Except.error e, true)
    | none =>
      match env.evalErr with
      | some e => (Except.error e, true)
      | none =>
        (Except.ok (finalFilter ((contentScan env.page).foldl addToSet s)), true)

/-- `extractM3U8WithBrowser`: the try-block wrapped in the finally
clause, which runs on the normal and on the error continuation alike
and closes the browser exactly when the handle is non-null. -/
def extractM3U8WithBrowser (env : BrowserEnv) : ExtractTrace :=
  let r := extractTry env
  ⟨r.1, r.2, r.2⟩

/-! ### Model of JSON.parse (used at extract.js line 30) -/

inductive Json where
  | null
  | bool (b : Bool)
  | num (raw : List Char)
  | str (s : List Char)
  | arr (xs : List Json)
  | obj (fields : List (List Char × Json))

def jsWs (c : Char) : Bool := c == ' ' || c == '\t' || c == '\n' || c == '\r'

def skipWs (l : List Char) : List Char := l.dropWhile jsWs

def hexVal (c : Char) : Option Nat :=
  if c.isDigit then some (c.toNat - 48)
  else if c.toNat ≥ 97 && c.toNat ≤ 102 then some (c.toNat - 87)
  else if c.toNat ≥ 65 && c.toNat ≤ 70 then some (c.toNat - 55)
  else none

/-- JSON string body after the opening quote, decoding the escapes.  A
\uXXXX escape in the surrogate range decodes to U+0000 (immaterial:
only syntactic validity and the url field are consulted). -/
def parseStrBody : Nat → List Char → Option (List Char × List Char)
  | 0, _ => none
  | _, [] => none
  | fuel + 1, c :: t =>
    if c == chQuote then some ([], t)
    else if c == chBackslash then
      match t with
      | [] => none
      | e :: t2 =>
        let simple : Option Char :=
          if e == chQuote then some chQuote
          else if e == chBackslash then some chBackslash
          else if e == '/' then some '/'
          else if e == 'b' then some (Char.ofNat 8)
          else if e == 'f' then some (Char.ofNat 12)
          else if e == 'n' then some '\n'
          else if e == 'r' then some '\r'
          else if e == 't' then some '\t'
          else none
        match simple with
        | some d => (parseStrBody fuel t2).map (fun p => (d :: p.1, p.2))
        | none =>
          if e == 'u' then
            match t2 with
            | h1 :: h2 :: h3 :: h4 :: t3 =>
              match hexVal h1, hexVal h2, hexVal h3, hexVal h4 with
              | some a, some b, some c2, some d =>
                let n := ((a * 16 + b) * 16 + c2) * 16 + d
                let ch := if n < 55296 || n ≥ 57344 then Char.ofNat n else Char.ofNat 0
                (parseStrBody fuel t3).map (fun p => (ch :: p.1, p.2))
              | _, _, _, _ => none
            | _ => none
          else none
    else if c.toNat < 32 then none
    else (parseStrBody fuel t).map (fun p => (c :: p.1, p.2))

/-- Fractional part of a JSON number. -/
def parseFrac (l : List Char) : Option (List Char × List Char) :=
  match l with
  | '.' :: t =>
    let ds := t.takeWhile Char.isDigit
    if ds.isEmpty then none else some ('.' :: ds, t.drop ds.length)
  | _ => some ([], l)

/-- Exponent part of a JSON number. -/
def parseExp (l : List Char) : Option (List Char × List Char) :=
  match l with
  | e :: t =>
    if e == 'e' || e == 'E' then
      let sg : List Char × List Char := match t with
        | '+' :: t3 => (['+'], t3)
        | '-' :: t3 => (['-'], t3)
        | _ => ([], t)
      let ds := sg.2.takeWhile Char.isDigit
      if ds.isEmpty then none else some (e :: (sg.1 ++ ds), sg.2.drop ds.length)
    else some ([], l)
  | [] => some ([], l)

/-- JSON number grammar: leading zeros and bare dots are rejected, as
by JSON.parse. -/
def parseNum (l : List Char) : Option (List Char × List Char) :=
  let sp : List Char × List Char := match l with
    | '-' :: t => (['-'], t)
    | _ => ([], l)
  match sp.2 with
  | [] => none
  | c :: rest1 =>
    if !c.isDigit then none
    else if c == '0' && (rest1.headD ' ').isDigit then none
    else
      let intPart := sp.2.takeWhile Char.isDigit
      match parseFrac (sp.2.drop intPart.length) with
      | none => none
      | some (fr, l3) =>
        match parseExp l3 with
        | none => none
        | some (ex, l4) => some (sp.1 ++ intPart ++ fr ++ ex, l4)

mutual

/-- One JSON value (fuel-indexed recursive descent). -/
def parseVal : Nat → List Char → Option (Json × List Char)
  | 0, _ => none
  | fuel + 1, l =>
    match skipWs l with
    | [] => none
    | c :: t =>
      if c == chQuote then
        match parseStrBody t.length t with
        | some (s, r) => some (Json.str s, r)
        | none => none
      else if c == chLBrace then parseObjFields fuel t true
      else if c == '[' then parseArrElems fuel t true
      else if isSubAt "true".data (c :: t) then some (Json.bool true, (c :: t).drop 4)
      else if isSubAt "false".data (c :: t) then some (Json.bool false, (c :: t).drop 5)
      else if isSubAt "null".data (c :: t) then some (Json.null, (c :: t).drop 4)
      else
        match parseNum (c :: t) with
        | some (raw, r) => some (Json.num raw, r)
        | none => none

/-- Array elements after the opening bracket. -/
def parseArrElems : Nat → List Char → Bool → Option (Json × List Char)
  | 0, _, _ => none
  | fuel + 1, l, isFirst =>
    match skipWs l with
    | [] => none
    | c :: t =>
      if c == ']' && isFirst then some (Json.arr [], t)
      else
        match parseVal fuel l with
        | none => none
        | some (v, r) =>
          match skipWs r with
          | ',' :: r2 =>
            match parseArrElems fuel r2 false with
            | some (Json.arr xs, r3) => some (Json.arr (v :: xs), r3)
            | _ => none
          | ']' :: r2 => some (Json.arr [v], r2)
          | _ => none

/-- Object members after the opening brace. -/
def parseObjFields : Nat → List Char → Bool → Option (Json × List Char)
  | 0, _, _ => none
  | fuel + 1, l, isFirst =>
    match skipWs l with
    | [] => none
    | c :: t =>
      if c == chRBrace && isFirst then some (Json.obj [], t)
      else if c == chQuote then
        match parseStrBody t.length t with
        | none => none
        | some (key, r) =>
          match skipWs r with
          | ':' :: r2 =>
            match parseVal fuel r2 with
            | none => none
            | some (v, r3) =>
              match skipWs r3 with
              | ',' :: r4 =>
                match parseObjFields fuel r4 false with
                | some (Json.obj fs, r5) => some (Json.obj ((key, v) :: fs), r5)
                | _ => none
              | c2 :: r4 => if c2 == chRBrace then some (Json.obj [(key, v)], r4) else none
              | [] => none
          | _ => none
      else none

end

/-- Model of JSON.parse: `none` models a thrown SyntaxError. -/
def jsonParse (s : String) : Option Json :=
  match parseVal (s.data.length + 1) s.data with
  | none => none
  | some (v, rest) => if (skipWs rest).isEmpty then some v else none

/-- The JS property access `body.url` after JSON.parse: string-keyed
field lookup on objects (later duplicate keys win, as in JSON.parse),
the TypeError thrown by `null.url`, and `undefined` (`none`)
otherwise. -/
def jsGetUrl : Json → Except String (Option Json)
  | Json.null => Except.error "Cannot read properties of null"
  | Json.obj fs =>
    Except.ok (((fs.filter (fun p => p.1 == "url".data)).map Prod.snd).getLast?)
  | _ => Except.ok none

def numIsZero (raw : List Char) : Bool :=
  ((raw.takeWhile (fun c => !(c == 'e' || c == 'E'))).filter Char.isDigit).all
    (fun c => c == '0')

/-- JS truthiness of `targetUrl` (`none` models `undefined`). -/
def jsTruthy : Option Json → Bool
  | none => false
  | some Json.null => false
  | some (Json.bool b) => b
  | some (Json.num raw) => !numIsZero raw
  | some (Json.str s) => !s.isEmpty
  | some (Json.arr _) => true
  | some (Json.obj _) => true

/-- JS ToString as applied by the URL constructor to its argument; only
the string case is exercised by the handler theorems, the other cases
follow the standard JS conversions (arrays joined with commas,
"[object Object]" for plain objects). -/
def jsToString : Json → List Char
  | Json.null => "null".data
  | Json.bool true => "true".data
  | Json.bool false => "false".data
  | Json.num raw => raw
  | Json.str s => s
  | Json.arr xs => List.intercalate [','] (xs.attach.map (fun x => jsToString x.1))
  | Json.obj _ => "[object Object]".data
decreasing_by
  have hx := List.sizeOf_lt_of_mem x.2
  simp only [Json.arr.sizeOf_spec]
  omega

/-! ### The Netlify handler (extract.js lines 4-97) -/

structure HandlerEvent where
  httpMethod : String
  queryUrl : Option String
  body : Option String
deriving Repr

/-- The serialised JSON response body, kept structured (the timestamp
of the success body is an impure clock value and is omitted; no claim
consults it). -/
inductive RespBody where
  | empty
  | failure (error : String)
  | success (url : String) (links : List String) (primary : String)
deriving DecidableEq, Repr

structure HandlerResponse where
  statusCode : Nat
  body : RespBody
deriving DecidableEq, Repr

/-- Does the response body carry a boolean success flag?  (failure
bodies carry success: false, success bodies success: true.) -/
def RespBody.hasSuccessFlag : RespBody → Bool
  | RespBody.empty => false
  | RespBody.failure _ => true
  | RespBody.success _ _ _ => true

def missingUrlMsg : String := "Missing url parameter. Usage: /extract?url=https://example.com"

def invalidUrlMsg : String := "Invalid URL provided"

def noLinksMsg : String := "No M3U8 links found on the webpage"

/-- The message of the SyntaxError thrown by JSON.parse (the model
fixes one message text; only its presence matters). -/
def jsonSyntaxErrMsg : String := "Unexpected token in JSON"

def internalErr (m : String) : String := "Internal server error: " ++ m

/-- Lines 25-32 of the handler: obtain `targetUrl` from the query
parameters (GET) or the JSON body (POST).  `Except.error` models a
thrown exception (the SyntaxError of JSON.parse, or the TypeError of
reading `.url` off null), which the handler's catch clause receives. -/
def computeTargetUrl (ev : HandlerEvent) : Except String (Option Json) :=
  if ev.httpMethod = "GET" then Except.ok (ev.queryUrl.map (fun u => Json.str u.data))
  else if ev.httpMethod = "POST" then
    let bodyStr := match ev.body with
      | none => "\x7b\x7d"
      | some b => if b = "" then "\x7b\x7d" else b
    match jsonParse bodyStr with
    | none => Except.error jsonSyntaxErrMsg
    | some j => jsGetUrl j
  else Except.ok none

/-- exports.handler.  `extractOutcome` is the behaviour of the awaited
`extractM3U8WithBrowser(targetUrl)` call — `Except.error m` models a
rejected promise with message `m`.  The function is total: every
throwing construct inside the try block (body parsing and the
extraction call) is routed to the catch clause, which yields the
500 response. -/
def handler (ev : HandlerEvent) (extractOutcome : Except String (List String)) :
    HandlerResponse :=
  if ev.httpMethod = "OPTIONS" then ⟨200, RespBody.empty⟩
  else
    match computeTargetUrl ev with
    | Except.error m => ⟨500, RespBody.failure (internalErr m)⟩
    | Except.ok targetUrl =>
      if !jsTruthy targetUrl then ⟨400, RespBody.failure missingUrlMsg⟩
      else
        let urlStr : String := String.mk (jsToString (targetUrl.getD Json.null))
        if (parseURL urlStr).isNone then ⟨400, RespBody.failure invalidUrlMsg⟩
        else
          match extractOutcome with
          | Except.error m => ⟨500, RespBody.failure (internalErr m)⟩
          | Except.ok [] => ⟨404, RespBody.failure noLinksMsg⟩
          | Except.ok (l :: ls) => ⟨200, RespBody.success urlStr (l :: ls) l⟩

/-! ## Theorems -/

/-! ### The substring search agrees with list infixes -/

theorem isSubAt_iff (pat l : List Char) : isSubAt pat l = true ↔ pat <+: l := by
  induction pat generalizing l with
  | nil => simp [isSubAt, List.nil_prefix]
  | cons p ps ih =>
    cases l with
    | nil => simp [isSubAt, List.prefix_nil]
    | cons c cs => simp [isSubAt, List.cons_prefix_cons, ih, beq_iff_eq]

theorem listIncl_iff (pat l : List Char) : listIncl pat l = true ↔ pat <:+: l := by
  induction l with
  | nil => simp [listIncl, isSubAt_iff, List.prefix_nil, List.infix_nil]
  | cons c cs ih => simp [listIncl, isSubAt_iff, ih, List.infix_cons_iff]

theorem strIncludes_iff (s pat : String) :
    strIncludes s pat = true ↔ pat.data <:+: s.data := listIncl_iff _ _

/-! ### JS Set insertion -/

theorem mem_addToSet {s : List String} {x y : String} :
    y ∈ addToSet s x ↔ y ∈ s ∨ y = x := by
  unfold addToSet
  by_cases h : x ∈ s
  · rw [if_pos h]
    exact ⟨Or.inl, fun hy => hy.elim id (fun e => e ▸ h)⟩
  · rw [if_neg h]
    simp

theorem nodup_addToSet {s : List String} (x : String) (h : s.Nodup) :
    (addToSet s x).Nodup := by
  unfold addToSet
  by_cases hx : x ∈ s
  · simpa [hx]
  · simpa [hx, List.nodup_append] using h

theorem mem_foldl_addToSet_init {init l : List String} {x : String}
    (h : x ∈ init) : x ∈ l.foldl addToSet init := by
  induction l generalizing init with
  | nil => simpa
  | cons a t ih => exact ih (mem_addToSet.mpr (Or.inl h))

theorem mem_foldl_addToSet_of_mem {init l : List String} {x : String}
    (h : x ∈ l) : x ∈ l.foldl addToSet init := by
  induction l generalizing init with
  | nil => cases h
  | cons a t ih =>
    rw [List.foldl_cons]
    rcases List.mem_cons.mp h with rfl | h2
    · exact mem_foldl_addToSet_init (mem_addToSet.mpr (Or.inr rfl))
    · exact ih h2

theorem nodup_foldl_addToSet {l init : List String} (h : init.Nodup) :
    (l.foldl addToSet init).Nodup := by
  induction l generalizing init with
  | nil => simpa
  | cons a t ih => exact ih (nodup_addToSet a h)

theorem onRequest_fst (s : List String) (r : ReqEvent) :
    (onRequest s r).1 = if strIncludes r.url ".m3u8" then addToSet s r.url else s := by
  simp only [onRequest]
  split <;> rfl

theorem nodup_trafficStep {s : List String} (e : TrafficEvent) (h : s.Nodup) :
    (trafficStep s e).Nodup := by
  cases e with
  | req r =>
    simp only [trafficStep, onRequest_fst]
    split
    · exact nodup_addToSet _ h
    · exact h
  | resp url ct =>
    simp only [trafficStep, onResponse]
    split
    · exact nodup_addToSet _ h
    · exact h

theorem nodup_trafficFold (tr : List TrafficEvent) {init : List String}
    (h : init.Nodup) : (tr.foldl trafficStep init).Nodup := by
  induction tr generalizing init with
  | nil => simpa
  | cons e t ih => exact ih (nodup_trafficStep e h)

/-! ### Claim C1 -/

/-- C1: every string in the final Extraction Result came from the
candidate set and parses (via the `new URL` model) as a syntactically
valid absolute URL whose path component contains ".m3u8"; any
candidate that fails to parse or whose path lacks the marker — i.e.
any candidate with `isKeptLink` false, which covers ".m3u8" occurring
only in the query string — is silently dropped by the total filter
function rather than causing a failure. -/
theorem c1_final_filter_sound (cands : List String) (s : String) :
    (s ∈ finalFilter cands →
      s ∈ cands ∧ ∃ u, parseURL s = some u ∧ listIncl dotM3u8 u.pathname = true) ∧
    (s ∈ cands → isKeptLink s = false → s ∉ finalFilter cands) := by
  constructor
  · intro hs
    have hmem := List.mem_filter.mp hs
    refine ⟨hmem.1, ?_⟩
    have hk := hmem.2
    unfold isKeptLink at hk
    cases hp : parseURL s with
    | none => rw [hp] at hk; cases hk
    | some u => rw [hp] at hk; exact ⟨u, rfl, hk⟩
  · intro _ hk hmem
    have h2 := (List.mem_filter.mp hmem).2
    rw [hk] at h2
    cases h2

/-- Witness for C1: the spec's own examples — the tokenised manifest
URL is kept, while the page URL carrying ".m3u8" only in its query
string is dropped. -/
theorem c1_final_filter_sound_witness :
    ("https://cdn.example.com/stream/index.m3u8?token=abc" ∈
        (["https://cdn.example.com/stream/index.m3u8?token=abc", "not a url",
          "https://example.com/page.html?x=.m3u8"] : List String) ∧
      ∃ u, parseURL "https://cdn.example.com/stream/index.m3u8?token=abc" = some u ∧
        listIncl dotM3u8 u.pathname = true) ∧
    "https://example.com/page.html?x=.m3u8" ∉
      finalFilter ["https://cdn.example.com/stream/index.m3u8?token=abc", "not a url",
        "https://example.com/page.html?x=.m3u8"] :=
  ⟨(c1_final_filter_sound
      ["https://cdn.example.com/stream/index.m3u8?token=abc", "not a url",
        "https://example.com/page.html?x=.m3u8"] _).1 (by decide),
   (c1_final_filter_sound
      ["https://cdn.example.com/stream/index.m3u8?token=abc", "not a url",
        "https://example.com/page.html?x=.m3u8"] _).2 (by decide) (by decide)⟩

/-! ### Claim C5 -/

/-- C5: the final filter step is idempotent — filtering an
already-filtered list returns it unchanged, order included. -/
theorem c5_filter_idempotent (l : List String) :
    finalFilter (finalFilter l) = finalFilter l := by
  simp [finalFilter, List.filter_filter]

/-! ### Claim C3 (corrected) -/

/-- C3 as stated is false: capture happens before the resource-type
check, so a blocked image request whose URL contains ".m3u8" is added
to the Manifest Link Set even though it is aborted. -/
theorem c3_counterexample :
    (onRequest [] ⟨"https://a.com/x.m3u8", "image"⟩).2 = ReqAction.abortReq ∧
    "https://a.com/x.m3u8" ∈ (onRequest [] ⟨"https://a.com/x.m3u8", "image"⟩).1 := by
  constructor
  · rfl
  · show "https://a.com/x.m3u8" ∈ ["https://a.com/x.m3u8"]
    exact List.mem_singleton.mpr rfl

/-- C3 amended: every image/font/stylesheet request is aborted, but
capture is independent of blocking — the request URL is added to the
set exactly when it contains ".m3u8", aborted or not. -/
theorem c3_amended (s : List String) (r : ReqEvent)
    (h : r.resourceType ∈ (["image", "font", "stylesheet"] : List String)) :
    (onRequest s r).2 = ReqAction.abortReq ∧
    (onRequest s r).1 = (if strIncludes r.url ".m3u8" then addToSet s r.url else s) := by
  refine ⟨?_, onRequest_fst s r⟩
  simp only [onRequest]
  rw [if_pos h]

theorem c3_amended_witness :
    (onRequest [] ⟨"https://a.com/logo.png", "font"⟩).2 = ReqAction.abortReq ∧
    (onRequest [] ⟨"https://a.com/logo.png", "font"⟩).1 =
      (if strIncludes "https://a.com/logo.png" ".m3u8" then
        addToSet [] "https://a.com/logo.png" else []) :=
  c3_amended [] ⟨"https://a.com/logo.png", "font"⟩ (by decide)

/-! ### Claim C6 -/

/-- C6: a successful extraction result never contains duplicates: all
candidates (network- and scanner-observed alike) pass through one
string-deduplicated set before filtering, so every member occurs
exactly once. -/
theorem c6_no_duplicates (env : BrowserEnv) (links : List String)
    (h : (extractM3U8WithBrowser env).result = Except.ok links) :
    links.Nodup ∧ ∀ x ∈ links, links.count x = 1 := by
  have hnodup : links.Nodup := by
    rcases env with ⟨le, tr, ge, ee, pg⟩
    cases le <;> cases ge <;> cases ee <;>
      simp only [extractM3U8WithBrowser, extractTry] at h <;>
        try exact Except.noConfusion h
    rw [← Except.ok.inj h]
    exact List.Nodup.filter _
      (nodup_foldl_addToSet (nodup_trafficFold _ List.nodup_nil))
  exact ⟨hnodup, fun x hx => List.count_eq_one_of_mem hnodup hx⟩

/-- Witness for C6: the same manifest URL observed both via a network
response and via the attribute scan of the Content Scanner appears
exactly once in the final list. -/
theorem c6_no_duplicates_witness :
    (extractM3U8WithBrowser ⟨none,
        [TrafficEvent.resp "https://h.io/live.m3u8" "application/vnd.apple.mpegurl"],
        none, none, ⟨[], [], ["https://h.io/live.m3u8"], ""⟩⟩).result =
      Except.ok ["https://h.io/live.m3u8"] ∧
    (["https://h.io/live.m3u8"] : List String).Nodup ∧
    List.count "https://h.io/live.m3u8" ["https://h.io/live.m3u8"] = 1 := by
  have h : (extractM3U8WithBrowser ⟨none,
      [TrafficEvent.resp "https://h.io/live.m3u8" "application/vnd.apple.mpegurl"],
      none, none, ⟨[], [], ["https://h.io/live.m3u8"], ""⟩⟩).result =
      Except.ok ["https://h.io/live.m3u8"] := by rfl
  refine ⟨h, (c6_no_duplicates _ _ h).1, (c6_no_duplicates _ _ h).2 _ ?_⟩
  exact List.mem_singleton.mpr rfl

/-! ### Claim C7 -/

/-- C7: provided launching succeeded, the browser session is closed on
every exit path of the extraction routine — normal return (with or
without links) and exceptions thrown during navigation or evaluation
alike — since the finally clause runs on both continuations and the
handle is non-null.  `env` ranges over all outcome environments, so
all exit paths are covered. -/
theorem c7_teardown (env : BrowserEnv) (h : env.launchErr = none) :
    (extractM3U8WithBrowser env).browserLaunched = true ∧
    (extractM3U8WithBrowser env).browserClosed = true := by
  rcases env with ⟨le, tr, ge, ee, pg⟩
  cases le with
  | some e => cases h
  | none => cases ge <;> cases ee <;> simp [extractM3U8WithBrowser, extractTry]

/-! ### Provenance of the pathname: every pathname other than "/" is a
slash-normalised contiguous segment of the (cleaned) input, so a
marker occurrence in the pathname implies one in the input URL. -/

theorem trimEnd_isPrefix_self (l : List Char) : trimEnd l <+: l := by
  unfold trimEnd
  have h2 : ((l.reverse.dropWhile isC0Space).reverse).reverse <:+ l.reverse := by
    rw [List.reverse_reverse]
    exact List.dropWhile_suffix _
  exact List.reverse_suffix.mp h2

theorem cleanInput_isInfix_self {l : List Char} (h : ∀ c ∈ l, isTabNewline c = false) :
    cleanInput l <:+: l := by
  unfold cleanInput
  rw [List.filter_eq_self.mpr (fun a ha => by rw [h a ha]; rfl)]
  exact ((trimEnd_isPrefix_self _).isInfix).trans ((List.dropWhile_suffix _).isInfix)

theorem splitScheme_rest_suffix {l sch rest : List Char}
    (h : splitScheme l = some (sch, rest)) : rest <:+ l := by
  unfold splitScheme at h
  cases l with
  | nil => cases h
  | cons c t =>
    simp only at h
    split at h
    · cases h
    · split at h
      · injection h with h2
        have hr : (((c :: t).drop ((c :: t).takeWhile isSchemeChar).length).drop 1) = rest :=
          congrArg Prod.snd h2
        rw [← hr]
        exact (List.drop_suffix _ _).trans (List.drop_suffix _ _)
      · cases h

theorem parseAfterSpecial_pathname {scheme rest : List Char} {u : URLParts}
    (h : parseAfterSpecial scheme rest = some u) :
    u.pathname = ['/'] ∨ ∃ seg, seg <:+: rest ∧ u.pathname = seg.map slashify := by
  have hseg : (((rest.dropWhile isSlash).drop
      ((rest.dropWhile isSlash).takeWhile (fun c => !(isSlash c || pathEnd c))).length).takeWhile
        (fun c => !pathEnd c)) <:+: rest :=
    ((List.takeWhile_prefix _).isInfix).trans
      (((List.drop_suffix _ _).isInfix).trans ((List.dropWhile_suffix _).isInfix))
  simp only [parseAfterSpecial] at h
  split at h
  · cases h
  · split at h
    · cases h
    · split at h
      · cases h
      · injection h with h2
        subst h2
        split
        next hemp => exact Or.inl rfl
        next hemp => exact Or.inr ⟨_, hseg, rfl⟩

theorem parseAfterFile_pathname {rest : List Char} {u : URLParts}
    (h : parseAfterFile rest = some u) :
    u.pathname = ['/'] ∨ ∃ seg, seg <:+: rest ∧ u.pathname = seg.map slashify := by
  simp only [parseAfterFile] at h
  split at h
  · have hseg : (((rest.drop 2).drop
        ((rest.drop 2).takeWhile (fun c => !(isSlash c || pathEnd c))).length).takeWhile
          (fun c => !pathEnd c)) <:+: rest :=
      ((List.takeWhile_prefix _).isInfix).trans
        (((List.drop_suffix _ _).isInfix).trans ((List.drop_suffix _ _).isInfix))
    split at h
    · cases h
    · split at h
      · cases h
      · injection h with h2
        subst h2
        split
        next => exact Or.inl rfl
        next => exact Or.inr ⟨_, hseg, rfl⟩
  · have hseg : (rest.takeWhile (fun c => !pathEnd c)) <:+: rest :=
      (List.takeWhile_prefix _).isInfix
    injection h with h2
    subst h2
    split
    next => exact Or.inl rfl
    next => exact Or.inr ⟨_, hseg, rfl⟩

theorem parseAfterNonSpecial_pathname {scheme rest : List Char} {u : URLParts}
    (h : parseAfterNonSpecial scheme rest = some u) :
    ∃ seg, seg <:+: rest ∧ u.pathname = seg := by
  simp only [parseAfterNonSpecial] at h
  split at h
  · have hseg : (((rest.drop 2).drop
        ((rest.drop 2).takeWhile (fun c => !(c == '/' || pathEnd c))).length).takeWhile
          (fun c => !pathEnd c)) <:+: rest :=
      ((List.takeWhile_prefix _).isInfix).trans
        (((List.drop_suffix _ _).isInfix).trans ((List.drop_suffix _ _).isInfix))
    split at h
    · cases h
    · split at h
      · cases h
      · split at h
        · cases h
        · injection h with h2
          subst h2
          exact ⟨_, hseg, rfl⟩
  · injection h with h2
    subst h2
    exact ⟨_, (List.takeWhile_prefix _).isInfix, rfl⟩

theorem pathname_origin {l : List Char} {u : URLParts}
    (h : parseURLChars l = some u) :
    u.pathname = ['/'] ∨ ∃ seg, seg <:+: cleanInput l ∧
      (u.pathname = seg.map slashify ∨ u.pathname = seg) := by
  unfold parseURLChars at h
  cases hs : splitScheme (cleanInput l) with
  | none => rw [hs] at h; cases h
  | some p =>
    rw [hs] at h
    have hrest : p.2 <:+ cleanInput l := splitScheme_rest_suffix (by rw [hs])
    simp only at h
    split at h
    · rcases parseAfterFile_pathname h with h1 | ⟨seg, hseg, hp⟩
      · exact Or.inl h1
      · exact Or.inr ⟨seg, hseg.trans hrest.isInfix, Or.inl hp⟩
    · split at h
      · rcases parseAfterSpecial_pathname h with h1 | ⟨seg, hseg, hp⟩
        · exact Or.inl h1
        · exact Or.inr ⟨seg, hseg.trans hrest.isInfix, Or.inl hp⟩
      · rcases parseAfterNonSpecial_pathname h with ⟨seg, hseg, hp⟩
        exact Or.inr ⟨seg, hseg.trans hrest.isInfix, Or.inr hp⟩

theorem map_slashify_eq {mid pat : List Char} (hp : ∀ c ∈ pat, ¬c = '/')
    (h : mid.map slashify = pat) : mid = pat := by
  induction mid generalizing pat with
  | nil => simpa using h
  | cons c cs ih =>
    cases pat with
    | nil => simp at h
    | cons p ps =>
      rw [List.map_cons] at h
      injection h with h1 h2
      have hps := ih (fun x hx => hp x (List.mem_cons_of_mem _ hx)) h2
      subst hps
      by_cases hb : c = chBackslash
      · exfalso
        apply hp p (List.mem_cons_self _ _)
        rw [← h1, hb]
        rfl
      · have hc : slashify c = c := by simp [slashify, hb]
        rw [hc] at h1
        rw [h1]

theorem dotM3u8_infix_of_map {seg : List Char}
    (h : dotM3u8 <:+: seg.map slashify) : dotM3u8 <:+: seg := by
  rcases h with ⟨s, t, hst⟩
  rcases List.map_eq_append_iff.mp hst.symm with ⟨a, b, hab, ha, hb⟩
  rcases List.map_eq_append_iff.mp ha with ⟨a1, a2, ha12, ha1, ha2⟩
  have h2 : a2 = dotM3u8 := map_slashify_eq (by decide) ha2
  exact ⟨a1, b, by rw [hab, ha12, h2]⟩

/-- A link the final filter keeps must contain ".m3u8" as a substring
of its raw text, provided the text is free of tab/newline characters
(which the URL parser strips; a URL reported by the browser network
stack is already serialised and never contains them). -/
theorem includes_of_isKept {link : String}
    (hclean : ∀ c ∈ link.data, isTabNewline c = false)
    (h : isKeptLink link = true) : strIncludes link ".m3u8" = true := by
  unfold isKeptLink at h
  cases hp : parseURL link with
  | none => rw [hp] at h; cases h
  | some u =>
    rw [hp] at h
    have hinf : dotM3u8 <:+: u.pathname := (listIncl_iff _ _).mp h
    unfold parseURL at hp
    rcases pathname_origin hp with hroot | ⟨seg, hseg, hform⟩
    · rw [hroot] at hinf
      have hle := hinf.length_le
      simp [dotM3u8] at hle
    · have hseg2 : dotM3u8 <:+: seg := by
        rcases hform with hmap | hid
        · exact dotM3u8_infix_of_map (hmap ▸ hinf)
        · exact hid ▸ hinf
      have hl : dotM3u8 <:+: link.data :=
        (hseg2.trans hseg).trans (cleanInput_isInfix_self hclean)
      exact (strIncludes_iff _ _).mpr hl

/-! ### Claim C4 -/

/-- C4: a response whose content type carries either HLS MIME token but
whose URL does not contain ".m3u8" is added to the Manifest Link Set by
the response handler, yet can never survive the final filter (its
pathname cannot contain the marker), documenting the capture/filter
gap.  The tab/newline-freedom hypothesis reflects that response URLs
are already serialised by the network stack. -/
theorem c4_content_type_gap (s : List String) (url ct : String)
    (hclean : ∀ c ∈ url.data, isTabNewline c = false)
    (hno : strIncludes url ".m3u8" = false)
    (hct : strIncludes ct "application/vnd.apple.mpegurl" = true ∨
           strIncludes ct "application/x-mpegurl" = true) :
    url ∈ onResponse s url ct ∧ ∀ cands : List String, url ∉ finalFilter cands := by
  constructor
  · unfold onResponse
    rw [if_pos]
    · exact mem_addToSet.mpr (Or.inr rfl)
    · rcases hct with h1 | h1 <;> simp [h1, hno]
  · intro cands hmem
    have hk := (List.mem_filter.mp hmem).2
    have := includes_of_isKept hclean hk
    rw [hno] at this
    cases this

/-- Witness for C4: a playlist URL without ".m3u8" served as
`application/vnd.apple.mpegurl` is captured but filtered out. -/
theorem c4_content_type_gap_witness :
    "https://h.io/playlist" ∈ onResponse [] "https://h.io/playlist"
      "application/vnd.apple.mpegurl" ∧
    "https://h.io/playlist" ∉ finalFilter ["https://h.io/playlist"] :=
  ⟨(c4_content_type_gap [] "https://h.io/playlist" "application/vnd.apple.mpegurl"
      (by decide) (by decide) (Or.inl (by decide))).1,
   (c4_content_type_gap [] "https://h.io/playlist" "application/vnd.apple.mpegurl"
      (by decide) (by decide) (Or.inl (by decide))).2 ["https://h.io/playlist"]⟩

/-- Witness for C7: teardown on the exit path where the in-page
evaluation throws. -/
theorem c7_teardown_witness :
    (extractM3U8WithBrowser ⟨none, [], none, some "evaluation failed",
        ⟨[], [], [], ""⟩⟩).browserLaunched = true ∧
    (extractM3U8WithBrowser ⟨none, [], none, some "evaluation failed",
        ⟨[], [], [], ""⟩⟩).browserClosed = true :=
  c7_teardown ⟨none, [], none, some "evaluation failed", ⟨[], [], [], ""⟩⟩ rfl

/-! ### The handler on GET requests, characterised -/

theorem jsToString_str (s : List Char) : jsToString (Json.str s) = s := by
  simp [jsToString]

theorem handler_get (u : String) (b : Option String) (e : Except String (List String)) :
    handler ⟨"GET", some u, b⟩ e =
      if u = "" then ⟨400, RespBody.failure missingUrlMsg⟩
      else if (parseURL u).isNone then ⟨400, RespBody.failure invalidUrlMsg⟩
      else
        match e with
        | Except.error m => ⟨500, RespBody.failure (internalErr m)⟩
        | Except.ok [] => ⟨404, RespBody.failure noLinksMsg⟩
        | Except.ok (l :: ls) => ⟨200, RespBody.success u (l :: ls) l⟩ := by
  by_cases hu : u = ""
  · subst hu
    have hz : jsTruthy (some (Json.str ("" : String).data)) = false := rfl
    have hstep : handler ⟨"GET", some "", b⟩ e =
        if !jsTruthy (some (Json.str ("" : String).data)) then
          ⟨400, RespBody.failure missingUrlMsg⟩
        else if (parseURL (String.mk (jsToString (Json.str ("" : String).data)))).isNone then
          ⟨400, RespBody.failure invalidUrlMsg⟩
        else
          match e with
          | Except.error m => ⟨500, RespBody.failure (internalErr m)⟩
          | Except.ok [] => ⟨404, RespBody.failure noLinksMsg⟩
          | Except.ok (l :: ls) =>
            ⟨200, RespBody.success (String.mk (jsToString (Json.str ("" : String).data)))
              (l :: ls) l⟩ := rfl
    rw [hstep, hz]
    rfl
  · have hdata : u.data ≠ [] := fun hd => hu (String.ext hd)
    have htruthy : jsTruthy (some (Json.str u.data)) = true := by
      simp [jsTruthy, List.isEmpty_iff, hdata]
    have hmk : String.mk (jsToString (Json.str u.data)) = u := by
      rw [jsToString_str]
    have hstep : handler ⟨"GET", some u, b⟩ e =
        if !jsTruthy (some (Json.str u.data)) then ⟨400, RespBody.failure missingUrlMsg⟩
        else if (parseURL (String.mk (jsToString (Json.str u.data)))).isNone then
          ⟨400, RespBody.failure invalidUrlMsg⟩
        else
          match e with
          | Except.error m => ⟨500, RespBody.failure (internalErr m)⟩
          | Except.ok [] => ⟨404, RespBody.failure noLinksMsg⟩
          | Except.ok (l :: ls) =>
            ⟨200, RespBody.success (String.mk (jsToString (Json.str u.data))) (l :: ls) l⟩ :=
      rfl
    rw [hstep, hmk, htruthy, if_neg hu]
    rfl

/-! ### Claim C2 -/

/-- C2: the complete status-code mapping of the handler.  An OPTIONS
request yields 200 with an empty body, independently of the extractor
outcome; a missing target URL (absent GET query parameter, or a POST
without a body, whose body defaults to the empty JSON object) yields
400; a present but unparseable URL yields 400; an extraction failure
yields 500; an empty extraction result yields 404; a nonempty one
yields 200. -/
theorem c2_status_codes :
    (∀ q b e1 e2, handler ⟨"OPTIONS", q, b⟩ e1 = handler ⟨"OPTIONS", q, b⟩ e2 ∧
        handler ⟨"OPTIONS", q, b⟩ e1 = ⟨200, RespBody.empty⟩) ∧
    (∀ b e, handler ⟨"GET", none, b⟩ e = ⟨400, RespBody.failure missingUrlMsg⟩) ∧
    (∀ q e, handler ⟨"POST", q, none⟩ e = ⟨400, RespBody.failure missingUrlMsg⟩) ∧
    (∀ u b e, u ≠ "" → parseURL u = none →
        handler ⟨"GET", some u, b⟩ e = ⟨400, RespBody.failure invalidUrlMsg⟩) ∧
    (∀ u b m, (parseURL u).isSome = true →
        handler ⟨"GET", some u, b⟩ (Except.error m) =
          ⟨500, RespBody.failure (internalErr m)⟩) ∧
    (∀ u b, (parseURL u).isSome = true →
        handler ⟨"GET", some u, b⟩ (Except.ok []) =
          ⟨404, RespBody.failure noLinksMsg⟩) ∧
    (∀ u b l ls, (parseURL u).isSome = true →
        handler ⟨"GET", some u, b⟩ (Except.ok (l :: ls)) =
          ⟨200, RespBody.success u (l :: ls) l⟩) := by
  have hne : ∀ u : String, (parseURL u).isSome = true → u ≠ "" := by
    intro u h he
    subst he
    exact absurd h (by decide)
  have hnn : ∀ u : String, (parseURL u).isSome = true → ¬((parseURL u).isNone = true) := by
    intro u h hn
    rw [Option.isNone_iff_eq_none.mp hn] at h
    exact absurd h (by decide)
  refine ⟨fun q b e1 e2 => ⟨rfl, rfl⟩, fun b e => rfl, fun q e => rfl,
    ?_, ?_, ?_, ?_⟩
  · intro u b e hu hinv
    rw [handler_get, if_neg hu, if_pos (by rw [hinv]; rfl)]
  · intro u b m h
    rw [handler_get, if_neg (hne u h), if_neg (hnn u h)]
  · intro u b h
    rw [handler_get, if_neg (hne u h), if_neg (hnn u h)]
  · intro u b l ls h
    rw [handler_get, if_neg (hne u h), if_neg (hnn u h)]

/-- Witness for C2: each hypothesis-bearing row applied at concrete
inputs. -/
theorem c2_status_codes_witness :
    handler ⟨"GET", some "not a url", none⟩ (Except.ok ["x"]) =
      ⟨400, RespBody.failure invalidUrlMsg⟩ ∧
    handler ⟨"GET", some "https://ex.com/p", none⟩ (Except.error "goto failed") =
      ⟨500, RespBody.failure (internalErr "goto failed")⟩ ∧
    handler ⟨"GET", some "https://ex.com/p", none⟩ (Except.ok []) =
      ⟨404, RespBody.failure noLinksMsg⟩ ∧
    handler ⟨"GET", some "https://ex.com/p", none⟩
        (Except.ok ["https://cdn.io/a.m3u8", "https://cdn.io/b.m3u8"]) =
      ⟨200, RespBody.success "https://ex.com/p"
        ["https://cdn.io/a.m3u8", "https://cdn.io/b.m3u8"] "https://cdn.io/a.m3u8"⟩ :=
  ⟨c2_status_codes.2.2.2.1 "not a url" none (Except.ok ["x"]) (by decide) (by decide),
   c2_status_codes.2.2.2.2.1 "https://ex.com/p" none "goto failed" (by decide),
   c2_status_codes.2.2.2.2.2.1 "https://ex.com/p" none (by decide),
   c2_status_codes.2.2.2.2.2.2 "https://ex.com/p" none "https://cdn.io/a.m3u8"
     ["https://cdn.io/b.m3u8"] (by decide)⟩

/-! ### Claim C9 -/

/-- C9: for any valid URL string the handler never escapes an
exception (it is a total function whose throwing sub-steps are all
routed through the catch clause) and responds with one of the status
codes 200, 404 or 500, carrying a JSON body with a boolean success
flag. -/
theorem c9_no_uncaught (u : String) (e : Except String (List String))
    (h : (parseURL u).isSome = true) :
    ((handler ⟨"GET", some u, none⟩ e).statusCode = 200 ∨
     (handler ⟨"GET", some u, none⟩ e).statusCode = 404 ∨
     (handler ⟨"GET", some u, none⟩ e).statusCode = 500) ∧
    (handler ⟨"GET", some u, none⟩ e).body.hasSuccessFlag = true := by
  have hne : u ≠ "" := by
    intro he
    subst he
    exact absurd h (by decide)
  have hnn : ¬((parseURL u).isNone = true) := by
    intro hn
    rw [Option.isNone_iff_eq_none.mp hn] at h
    exact absurd h (by decide)
  rw [handler_get, if_neg hne, if_neg hnn]
  cases e with
  | error m => exact ⟨Or.inr (Or.inr rfl), rfl⟩
  | ok links =>
    cases links with
    | nil => exact ⟨Or.inr (Or.inl rfl), rfl⟩
    | cons l ls => exact ⟨Or.inl rfl, rfl⟩

/-- Witness for C9 at a concrete valid URL and extractor outcome. -/
theorem c9_no_uncaught_witness :
    ((handler ⟨"GET", some "https://ex.com/p", none⟩ (Except.ok [])).statusCode = 200 ∨
     (handler ⟨"GET", some "https://ex.com/p", none⟩ (Except.ok [])).statusCode = 404 ∨
     (handler ⟨"GET", some "https://ex.com/p", none⟩ (Except.ok [])).statusCode = 500) ∧
    (handler ⟨"GET", some "https://ex.com/p", none⟩
        (Except.ok [])).body.hasSuccessFlag = true :=
  c9_no_uncaught "https://ex.com/p" (Except.ok []) (by decide)

/-! ### Claim C10 -/

/-- C10: a POST whose non-empty body is not valid JSON makes
JSON.parse throw inside the try block, so the response is the 500
internal-error response — not the 400 input-error response — while an
absent or empty body defaults to the empty JSON object and yields the
400 missing-url response. -/
theorem c10_bad_json_500 (b : String) (q : Option String)
    (e : Except String (List String)) (hb : b ≠ "") (hj : jsonParse b = none) :
    handler ⟨"POST", q, some b⟩ e =
      ⟨500, RespBody.failure (internalErr jsonSyntaxErrMsg)⟩ ∧
    handler ⟨"POST", q, none⟩ e = ⟨400, RespBody.failure missingUrlMsg⟩ ∧
    handler ⟨"POST", q, some ""⟩ e = ⟨400, RespBody.failure missingUrlMsg⟩ := by
  refine ⟨?_, rfl, rfl⟩
  have hc : computeTargetUrl ⟨"POST", q, some b⟩ = Except.error jsonSyntaxErrMsg := by
    show (match jsonParse (if b = "" then ("\x7b\x7d" : String) else b) with
          | none => Except.error jsonSyntaxErrMsg
          | some j => jsGetUrl j) = Except.error jsonSyntaxErrMsg
    rw [if_neg hb, hj]
  unfold handler
  rw [if_neg (by decide : ¬(("POST" : String) = "OPTIONS")), hc]

/-- Witness for C10: a concrete malformed body. -/
theorem c10_bad_json_500_witness :
    handler ⟨"POST", none, some "not json"⟩ (Except.ok ["x"]) =
      ⟨500, RespBody.failure (internalErr jsonSyntaxErrMsg)⟩ ∧
    handler ⟨"POST", none, none⟩ (Except.ok ["x"]) =
      ⟨400, RespBody.failure missingUrlMsg⟩ ∧
    handler ⟨"POST", none, some ""⟩ (Except.ok ["x"]) =
      ⟨400, RespBody.failure missingUrlMsg⟩ :=
  c10_bad_json_500 "not json" none (Except.ok ["x"]) (by decide) (by rfl)

/-! ### The scanner regex: matched text consists of URL characters, a
match at the URL itself has exactly the URL's length, and the global
scan finds the URL whenever it is delimited by non-URL characters. -/

theorem toLower_eq_self_of_not_urlChar {c : Char} (h : isUrlChar c = false) :
    c.toLower = c := by
  unfold isUrlChar at h
  simp only [Bool.not_eq_false', Bool.or_eq_true, beq_iff_eq, or_assoc] at h
  rcases h with rfl|rfl|rfl|rfl|rfl|rfl|rfl|rfl|rfl|rfl|rfl|rfl|rfl|rfl|rfl|rfl|rfl <;>
    decide

theorem urlChar_of_toLower {c : Char} (h : isUrlChar c.toLower = true) :
    isUrlChar c = true := by
  by_contra hc
  rw [Bool.not_eq_true] at hc
  rw [toLower_eq_self_of_not_urlChar hc, hc] at h
  cases h

theorem urlChars_of_cistarts {pat : String} {l : List Char}
    (h : cistarts pat l = true) (hp : ∀ d ∈ pat.data, isUrlChar d = true) :
    ∀ c ∈ l.take pat.length, isUrlChar c = true := by
  intro c hc
  unfold cistarts at h
  have heq : (l.take pat.length).map Char.toLower = pat.data := eq_of_beq h
  have hmem : c.toLower ∈ pat.data := heq ▸ List.mem_map_of_mem Char.toLower hc
  exact urlChar_of_toLower (hp _ hmem)

theorem take_of_prefix_le {p l : List Char} {m : Nat} (hp : p <+: l)
    (hm : m ≤ p.length) : l.take m = p.take m := by
  rcases hp with ⟨t, rfl⟩
  rw [List.take_append_eq_append_take, Nat.sub_eq_zero_of_le hm]
  simp

theorem drop_append_of_le {n : Nat} {l₁ l₂ : List Char} (h : n ≤ l₁.length) :
    (l₁ ++ l₂).drop n = l₁.drop n ++ l₂ := by
  rw [List.drop_append_eq_append_drop, Nat.sub_eq_zero_of_le h, List.drop_zero]

theorem lastM3u8Pos_spec {run : List Char} :
    ∀ {m j : Nat}, lastM3u8Pos run m = some j →
      1 ≤ j ∧ ((run.drop j).take 5).map Char.toLower = dotM3u8 := by
  intro m
  induction m with
  | zero => intro j h; cases h
  | succ mm ih =>
    intro j h
    unfold lastM3u8Pos at h
    split at h
    next hcond =>
      injection h with h2
      subst h2
      exact ⟨Nat.succ_le_succ (Nat.zero_le _), eq_of_beq hcond⟩
    next => exact ih h

theorem take_k_plus_spec {l : List Char} {k m n : Nat}
    (hkchars : ∀ c ∈ l.take k, isUrlChar c = true)
    (hm : m ≤ ((l.drop k).takeWhile isUrlChar).length)
    (hn : n = k + m) :
    ∀ c ∈ l.take n, isUrlChar c = true := by
  intro c hc
  rw [hn, List.take_add] at hc
  rcases List.mem_append.mp hc with h1 | h2
  · exact hkchars c h1
  · have hpre : (l.drop k).takeWhile isUrlChar <+: l.drop k := List.takeWhile_prefix _
    rw [take_of_prefix_le hpre hm] at h2
    exact List.mem_takeWhile_imp (List.take_subset _ _ h2)

/-- Every successful regex match is nonempty and consists only of URL
characters (the literal parts, the host/path run, and the optional
query are all drawn from the non-delimiter class). -/
theorem matchLen_spec {l : List Char} {n : Nat} (h : matchLen l = some n) :
    1 ≤ n ∧ ∀ c ∈ l.take n, isUrlChar c = true := by
  simp only [matchLen] at h
  split at h
  · cases h
  next hcond =>
    have h4 : cistarts "http" l = true := by
      revert hcond
      cases cistarts "http" l <;> simp
    split at h
    · cases h
    next k heq =>
      have hk : (k = 8 ∧ cistarts "s://" (l.drop 4) = true) ∨
                (k = 7 ∧ cistarts "://" (l.drop 4) = true) := by
        split at heq
        next hs => exact Or.inl ⟨(Option.some.inj heq).symm, hs⟩
        next hs =>
          split at heq
          next hs2 => exact Or.inr ⟨(Option.some.inj heq).symm, hs2⟩
          next => cases heq
      have hkchars : ∀ c ∈ l.take k, isUrlChar c = true := by
        rcases hk with ⟨rfl, hs⟩ | ⟨rfl, hs⟩
        · intro c hc
          rw [show (8 : Nat) = 4 + 4 from rfl, List.take_add] at hc
          rcases List.mem_append.mp hc with h1 | h2
          · exact urlChars_of_cistarts h4 (by decide) c h1
          · exact urlChars_of_cistarts hs (by decide) c h2
        · intro c hc
          rw [show (7 : Nat) = 4 + 3 from rfl, List.take_add] at hc
          rcases List.mem_append.mp hc with h1 | h2
          · exact urlChars_of_cistarts h4 (by decide) c h1
          · exact urlChars_of_cistarts hs (by decide) c h2
      have hk7 : 7 ≤ k := by rcases hk with ⟨rfl, _⟩ | ⟨rfl, _⟩ <;> omega
      split at h
      · cases h
      next j heqj =>
        obtain ⟨hj1, hjmap⟩ := lastM3u8Pos_spec heqj
        have hlen5 : j + 5 ≤ ((l.drop k).takeWhile isUrlChar).length := by
          have h5 := congrArg List.length hjmap
          rw [List.length_map, List.length_take, List.length_drop] at h5
          rw [show dotM3u8.length = 5 from rfl] at h5
          have h6 : (5 : Nat) ≤ ((l.drop k).takeWhile isUrlChar).length - j :=
            inf_eq_left.mp h5
          omega
        split at h
        next heqdrop =>
          obtain rfl := Option.some.inj h
          exact ⟨by omega, take_k_plus_spec hkchars hlen5 (by omega)⟩
        next c2 rest2 heqdrop =>
          split at h
          · obtain rfl := Option.some.inj h
            exact ⟨by omega, take_k_plus_spec hkchars (le_refl _) rfl⟩
          · obtain rfl := Option.some.inj h
            exact ⟨by omega, take_k_plus_spec hkchars hlen5 (by omega)⟩

/-- Reduction of `matchLen` under explicit component equalities. -/
theorem matchLen_eq_of {l run : List Char} {j : Nat}
    (h1 : cistarts "http" l = true) (h2 : cistarts "s://" (l.drop 4) = true)
    (hrun : (l.drop 8).takeWhile isUrlChar = run)
    (hj : lastM3u8Pos run run.length = some j)
    (hend : run.drop (j + 5) = []) :
    matchLen l = some (8 + j + 5) := by
  unfold matchLen
  rw [h1, h2]
  show (match lastM3u8Pos ((l.drop 8).takeWhile isUrlChar)
          (((l.drop 8).takeWhile isUrlChar).length) with
        | none => none
        | some j2 =>
          match ((l.drop 8).takeWhile isUrlChar).drop (j2 + 5) with
          | [] => some (8 + j2 + 5)
          | c :: _ =>
            if c == '?' then some (8 + ((l.drop 8).takeWhile isUrlChar).length)
            else some (8 + j2 + 5)) = some (8 + j + 5)
  rw [hrun, hj]
  show (match run.drop (j + 5) with
        | [] => some (8 + j + 5)
        | c :: _ => if c == '?' then some (8 + run.length) else some (8 + j + 5)) =
      some (8 + j + 5)
  rw [hend]

/-- The regex matches exactly the claim's URL when the following text
starts with a delimiter (or is empty). -/
theorem matchLen_url (post : List Char)
    (hpost : post = [] ∨ ∃ c t, post = c :: t ∧ isUrlChar c = false) :
    matchLen (masterUrl.data ++ post) = some masterUrl.data.length := by
  have h1 : cistarts "http" (masterUrl.data ++ post) = true := by
    unfold cistarts
    rw [take_of_prefix_le ⟨post, rfl⟩ (by decide)]
    decide
  have hd4 : (masterUrl.data ++ post).drop 4 = masterUrl.data.drop 4 ++ post :=
    drop_append_of_le (by decide)
  have h2 : cistarts "s://" ((masterUrl.data ++ post).drop 4) = true := by
    rw [hd4]
    unfold cistarts
    rw [take_of_prefix_le ⟨post, rfl⟩ (by decide)]
    decide
  have hd8 : (masterUrl.data ++ post).drop 8 = masterUrl.data.drop 8 ++ post :=
    drop_append_of_le (by decide)
  have hrun : ((masterUrl.data ++ post).drop 8).takeWhile isUrlChar =
      masterUrl.data.drop 8 := by
    rw [hd8, List.takeWhile_append, if_pos (by decide)]
    rcases hpost with rfl | ⟨c, t, rfl, hc⟩
    · simp
    · rw [List.takeWhile_cons, hc]
      simp
  have hj : lastM3u8Pos (masterUrl.data.drop 8) ((masterUrl.data.drop 8).length) =
      some 24 := by decide
  have hend : (masterUrl.data.drop 8).drop (24 + 5) = [] := by decide
  rw [matchLen_eq_of h1 h2 hrun hj hend]
  decide

/-- The global scan finds `u` in `p ++ s` whenever `p` ends in a
delimiter (so no earlier match can reach across the boundary) and `s`
begins with a full match of exactly `u`. -/
theorem mem_scanAux_of_matchLen {u : List Char} (hu : u ≠ []) :
    ∀ fuel (p s : List Char), (p ++ s).length ≤ fuel →
      (p = [] ∨ ∃ q d, p = q ++ [d] ∧ isUrlChar d = false) →
      matchLen s = some u.length → s.take u.length = u →
      u ∈ scanAux fuel (p ++ s) := by
  intro fuel
  induction fuel with
  | zero =>
    intro p s hlen hp hm ht
    exfalso
    rw [List.length_append] at hlen
    have hs : s = [] := List.length_eq_zero.mp (by omega)
    subst hs
    rw [List.take_nil] at ht
    exact hu ht.symm
  | succ f ih =>
    intro p s hlen hp hm ht
    cases p with
    | nil =>
      cases s with
      | nil =>
        rw [List.take_nil] at ht
        exact absurd ht.symm hu
      | cons c t =>
        have hred : scanAux (f + 1) (([] : List Char) ++ (c :: t)) =
            match matchLen (c :: t) with
            | some n => (c :: t).take n :: scanAux f ((c :: t).drop n)
            | none => scanAux f t := rfl
        rw [hred, hm]
        show u ∈ (c :: t).take u.length :: scanAux f ((c :: t).drop u.length)
        rw [ht]
        exact List.mem_cons_self _ _
    | cons a t2 =>
      rcases hp with hpnil | ⟨q, d, hqd, hd⟩
      · cases hpnil
      have hred : scanAux (f + 1) ((a :: t2) ++ s) =
          match matchLen ((a :: t2) ++ s) with
          | some n => ((a :: t2) ++ s).take n :: scanAux f (((a :: t2) ++ s).drop n)
          | none => scanAux f (t2 ++ s) := rfl
      cases hml : matchLen ((a :: t2) ++ s) with
      | none =>
        rw [hred, hml]
        have hnext : t2 = [] ∨ ∃ q2 d2, t2 = q2 ++ [d2] ∧ isUrlChar d2 = false := by
          cases q with
          | nil =>
            injection hqd with hq1 hq2
            exact Or.inl hq2
          | cons b q2 =>
            injection hqd with hq1 hq2
            exact Or.inr ⟨q2, d, hq2, hd⟩
        refine ih t2 s ?_ hnext hm ht
        rw [List.length_append] at hlen ⊢
        simp only [List.length_cons] at hlen
        omega
      | some n =>
        obtain ⟨hpos, hchars⟩ := matchLen_spec hml
        have hnq : n ≤ q.length := by
          by_contra hgt
          push_neg at hgt
          have hdmem : d ∈ ((a :: t2) ++ s).take n := by
            rw [hqd, List.take_append_eq_append_take]
            apply List.mem_append_left
            rw [List.take_of_length_le (by simp [List.length_append]; omega)]
            exact List.mem_append_right _ (List.mem_singleton.mpr rfl)
          have hbad := hchars d hdmem
          rw [hd] at hbad
          cases hbad
        have hdropeq : ((a :: t2) ++ s).drop n = (q.drop n ++ [d]) ++ s := by
          rw [hqd, drop_append_of_le (by simp [List.length_append]; omega),
              drop_append_of_le hnq]
        rw [hred, hml]
        show u ∈ ((a :: t2) ++ s).take n :: scanAux f (((a :: t2) ++ s).drop n)
        apply List.mem_cons_of_mem
        rw [hdropeq]
        refine ih (q.drop n ++ [d]) s ?_ (Or.inr ⟨q.drop n, d, rfl, hd⟩) hm ht
        have hlen2 := hlen
        rw [hqd] at hlen2
        simp only [List.length_append, List.length_cons, List.length_drop,
          List.length_singleton] at hlen2 ⊢
        omega

/-! ### Claim C8 -/

/-- C8: if the URL "https://example.com/video/master.m3u8" occurs in a
script's text delimited by non-URL characters (and nothing else on the
page — no other scripts, no accessible globals, no scanned attributes,
empty HTML — mentions it), the script-text pass alone recovers it: the
regex matches it and it enters the candidate set of the Content
Scanner. -/
theorem c8_script_scan (pre post : String)
    (hpre : pre.data = [] ∨ ∃ q d, pre.data = q ++ [d] ∧ isUrlChar d = false)
    (hpost : post.data = [] ∨ ∃ c t, post.data = c :: t ∧ isUrlChar c = false) :
    masterUrl ∈ regexMatches (pre ++ masterUrl ++ post) ∧
    masterUrl ∈ contentScan ⟨[pre ++ masterUrl ++ post], [], [], ""⟩ := by
  have hdata : (pre ++ masterUrl ++ post).data =
      pre.data ++ (masterUrl.data ++ post.data) := by
    rw [String.data_append, String.data_append, List.append_assoc]
  have ht : (masterUrl.data ++ post.data).take masterUrl.data.length =
      masterUrl.data := by
    rw [take_of_prefix_le ⟨post.data, rfl⟩ (le_refl _), List.take_length]
  have hmem : masterUrl.data ∈
      scanAux (pre ++ masterUrl ++ post).data.length (pre ++ masterUrl ++ post).data := by
    rw [hdata]
    exact mem_scanAux_of_matchLen (by decide) _ pre.data (masterUrl.data ++ post.data)
      (le_refl _) hpre (matchLen_url post.data hpost) ht
  have hmatches : masterUrl ∈ regexMatches (pre ++ masterUrl ++ post) := by
    unfold regexMatches
    exact List.mem_map_of_mem String.mk hmem
  refine ⟨hmatches, ?_⟩
  have hscan : contentScan ⟨[pre ++ masterUrl ++ post], [], [], ""⟩ =
      (regexMatches (pre ++ masterUrl ++ post)).foldl addToSet [] := rfl
  rw [hscan]
  exact mem_foldl_addToSet_of_mem hmatches

/-- Witness for C8: the URL inside a script statement, delimited by a
space on each side. -/
theorem c8_script_scan_witness :
    masterUrl ∈ regexMatches ("var src = " ++ masterUrl ++ " ;") ∧
    masterUrl ∈ contentScan ⟨["var src = " ++ masterUrl ++ " ;"], [], [], ""⟩ :=
  c8_script_scan "var src = " " ;"
    (Or.inr ⟨"var src =".data, ' ', by decide, by decide⟩)
    (Or.inr ⟨' ', ";".data, by decide, by decide⟩)

end M3U8
